import Mathlib

/-!
Verification of the in-memory text-retrieval engine: inverted-index
construction and querying (`inverted_index.py`), gap compression
(`compression.py`), and tolerant retrieval (`tolerant_retrieval.py`).

The Python code is shallowly embedded as executable Lean definitions.
Python generators are embedded as functions returning the finite list of
values the generator yields before it stops, paired (where relevant) with
a `Bool` that is `true` iff iterating the generator to its end terminates
normally (`StopIteration` raised by the generator machinery itself) and
`false` iff full iteration raises.  The latter happens whenever the
generator body calls `next(it)` without a default on an exhausted
iterator: since PEP 479 (Python >= 3.7) the escaping `StopIteration` is
replaced by a `RuntimeError` that propagates to the consumer.
Loops whose Python termination argument is "some iterator shrinks each
pass" are embedded with an explicit fuel argument that is provably
sufficient at every call site, so that every definition is structurally
recursive and evaluates by `rfl`/`decide`.
-/

/-- `compression.values_to_gaps`, inner loop: `result.append(value - offset);
offset = value`, with `offset` the accumulator. -/
def v2gAux (offset : Int) : List Int → List Int
  | [] => []
  | v :: vs => (v - offset) :: v2gAux v vs

/-- `compression.values_to_gaps`: convert a list of integer values to a list
of gaps; the running offset starts at 0. -/
def values_to_gaps (values : List Int) : List Int :=
  v2gAux 0 values

/-- `compression.gaps_to_values`, inner loop: `offset += gap;
result.append(offset)`. -/
def g2vAux (offset : Int) : List Int → List Int
  | [] => []
  | g :: gs => (offset + g) :: g2vAux (offset + g) gs

/-- `compression.gaps_to_values`: cumulative sum of a gap list, offset
starting at 0. -/
def gaps_to_values (gaps : List Int) : List Int :=
  g2vAux 0 gaps

lemma g2vAux_v2gAux (l : List Int) : ∀ o : Int, g2vAux o (v2gAux o l) = l := by
  induction l with
  | nil => intro o; rfl
  | cons v vs ih =>
    intro o
    have hv : o + (v - o) = v := by omega
    simp only [v2gAux, g2vAux, hv, ih v]

lemma v2gAux_g2vAux (l : List Int) : ∀ o : Int, v2gAux o (g2vAux o l) = l := by
  induction l with
  | nil => intro o; rfl
  | cons g gs ih =>
    intro o
    have hg : o + g - o = g := by omega
    simp only [g2vAux, v2gAux, hg, ih (o + g)]

/-- Comparison `a < b` on `Int`, as the boolean the Python runtime computes. -/
def intLt (a b : Int) : Bool := decide (a < b)

/-- Python string comparison `<` (lexicographic by code point) on the
underlying character lists. -/
def termLt : List Char → List Char → Bool
  | [], [] => false
  | [], _ :: _ => true
  | _ :: _, [] => false
  | a :: as, b :: bs => if a < b then true else if b < a then false else termLt as bs

/-- `<` on Python strings, via `termLt` on the character lists. -/
def strLt (a b : String) : Bool := termLt a.toList b.toList

/-- Body of the `while` loop of `inverted_index.intersect_sorted`, with the
current values `t1`, `t2` held by the two cursors and `r1`, `r2` the
unconsumed remainders of the two lists.  Every `next(iterN)` in the loop has
no default, so advancing past the end of either list raises
(`StopIteration` -> `RuntimeError` at the generator boundary, PEP 479): the
second component records whether iteration ends normally, and since the
elements compared are never `None`, no exit path of the loop is normal.
The fuel is `r1.length + r2.length + 1` at the outer call, which every
branch strictly decreases. -/
def intersectLoop {α : Type} [BEq α] (lt : α → α → Bool) :
    Nat → α → List α → α → List α → List α × Bool
  | 0, _, _, _, _ => ([], false)
  | fuel + 1, t1, r1, t2, r2 =>
    if t1 == t2 then
      match r1, r2 with
      | [], _ => ([t1], false)
      | _ :: _, [] => ([t1], false)
      | a :: r1', b :: r2' =>
        let rest := intersectLoop lt fuel a r1' b r2'
        (t1 :: rest.1, rest.2)
    else if lt t1 t2 then
      match r1 with
      | [] => ([], false)
      | a :: r1' => intersectLoop lt fuel a r1' t2 r2
    else
      match r2 with
      | [] => ([], false)
      | b :: r2' => intersectLoop lt fuel t1 r1 b r2'

/-- `inverted_index.intersect_sorted`: two-pointer intersection of two
sorted lists, as a generator.  The initial `term1 = next(iter1)` and
`term2 = next(iter2)` have no default, so an empty operand raises before
anything is yielded.  First component: the values yielded; second
component: `true` iff consuming the generator terminates normally (it
never does, see `intersectLoop`). -/
def intersect_sorted {α : Type} [BEq α] (lt : α → α → Bool) (l1 l2 : List α) :
    List α × Bool :=
  match l1, l2 with
  | [], _ => ([], false)
  | _ :: _, [] => ([], false)
  | t1 :: r1, t2 :: r2 => intersectLoop lt (r1.length + r2.length + 1) t1 r1 t2 r2

/-- Body of the `while` loop of `inverted_index.union_sorted`.  All `next`
calls there use the default `None`, so exhaustion is detected gracefully
and the tail of the longer list is drained; the generator always
terminates normally. -/
def unionLoop {α : Type} [BEq α] (lt : α → α → Bool) :
    Nat → α → List α → α → List α → List α
  | 0, _, _, _, _ => []
  | fuel + 1, t1, r1, t2, r2 =>
    if t1 == t2 then
      match r1, r2 with
      | [], _ => t1 :: r2
      | _ :: _, [] => t1 :: r1
      | a :: r1', b :: r2' => t1 :: unionLoop lt fuel a r1' b r2'
    else if lt t1 t2 then
      match r1 with
      | [] => t1 :: t2 :: r2
      | a :: r1' => t1 :: unionLoop lt fuel a r1' t2 r2
    else
      match r2 with
      | [] => t2 :: t1 :: r1
      | b :: r2' => t2 :: unionLoop lt fuel t1 r1 b r2'

/-- `inverted_index.union_sorted`: two-pointer union of two sorted lists. -/
def union_sorted {α : Type} [BEq α] (lt : α → α → Bool) (l1 l2 : List α) :
    List α :=
  match l1, l2 with
  | [], l2 => l2
  | l1, [] => l1
  | t1 :: r1, t2 :: r2 => unionLoop lt (r1.length + r2.length + 1) t1 r1 t2 r2

/-- Claim C6: for every strictly ascending integer sequence `v`,
`gaps_to_values (values_to_gaps v) = v` (in particular `[]` round-trips to
`[]`), and the first gap equals the first value (the running offset starts
at 0). -/
theorem gap_codec_roundtrip (v : List Int) (h : List.Chain' (· < ·) v) :
    gaps_to_values (values_to_gaps v) = v ∧
      (values_to_gaps v).head? = v.head? := by
  refine ⟨g2vAux_v2gAux v 0, ?_⟩
  cases v with
  | nil => rfl
  | cons a l =>
    simp only [values_to_gaps, v2gAux, List.head?_cons, Option.some.injEq]
    omega

/-- Witness for C6 at the concrete strictly ascending input `[2, 5, 9]`. -/
theorem gap_codec_roundtrip_witness :
    List.Chain' (fun a b : Int => a < b) [2, 5, 9] ∧
      (gaps_to_values (values_to_gaps [2, 5, 9]) = [2, 5, 9] ∧
        (values_to_gaps [2, 5, 9]).head? = ([2, 5, 9] : List Int).head?) :=
  ⟨by norm_num [List.chain'_cons], gap_codec_roundtrip [2, 5, 9] (by norm_num [List.chain'_cons])⟩

/-- Claim C10: for every integer list `g`, with no precondition,
`values_to_gaps (gaps_to_values g) = g`: cumulative sum followed by
consecutive differencing from offset 0 is an exact inverse. -/
theorem gap_codec_converse_roundtrip (g : List Int) :
    values_to_gaps (gaps_to_values g) = g :=
  v2gAux_g2vAux g 0

/-- Claim C1 (code bug): `intersect_sorted` with an empty first operand does
not yield the empty intersection and stop; the initial `next(iter1)` raises,
so consuming the generator raises `RuntimeError` (termination flag `false`)
before yielding anything. -/
theorem intersect_sorted_empty_raises :
    intersect_sorted intLt ([] : List Int) [5] = ([], false) := rfl

/-- Association-list model of a Python dict from terms to posting lists,
in key-insertion order. -/
abbrev TermIndex := List (String × List Int)

/-- `index[term]` on the `defaultdict(list)` produced by
`build_inverted_index`: looking up an absent key INSERTS it with value `[]`.
Returns the value together with the dictionary after the lookup. -/
def ddLookup (idx : TermIndex) (t : String) : List Int × TermIndex :=
  match List.lookup t idx with
  | some l => (l, idx)
  | none => ([], idx ++ [(t, [])])

/-- Replace the value stored for key `t` (first occurrence). -/
def setEntry : TermIndex → String → List Int → TermIndex
  | [], _, _ => []
  | (k, v) :: rest, t, nv =>
    if k == t then (k, nv) :: rest else (k, v) :: setEntry rest t nv

/-- One term of one document in `inverted_index.build_inverted_index`:
`if len(index[term]) == 0 or index[term][-1] != docid:
index[term].append(docid)` (the `defaultdict` access creates the entry on
first touch, so key order is first-touch order). -/
def addPosting (idx : TermIndex) (t : String) (docid : Int) : TermIndex :=
  match List.lookup t idx with
  | none => idx ++ [(t, [docid])]
  | some l =>
    if l.isEmpty || l.getLast? != some docid then setEntry idx t (l ++ [docid])
    else idx

/-- `inverted_index.build_inverted_index`.  Documents are given as a map
from document id to its term stream; tokenization and normalization
(`terms.split_whitespace`, `terms.normalize`) are external collaborators
per the spec and are applied before this point.  Document ids are visited
in ascending order (`sorted(documents.keys())`). -/
def build_inverted_index (documents : List (Int × List String)) : TermIndex :=
  (List.insertionSort (fun a b : Int => a ≤ b) (documents.map Prod.fst)).foldl
    (fun idx docid =>
      ((List.lookup docid documents).getD []).foldl
        (fun idx t => addPosting idx t docid) idx)
    []

/-- `inverted_index.query_and`: two `defaultdict` lookups (which insert
absent keys), then `intersect_sorted`.  Returns the (yields, normal
termination) pair of the resulting generator together with the index as it
stands after the lookups. -/
def query_and (idx : TermIndex) (term1 term2 : String) :
    (List Int × Bool) × TermIndex :=
  let r1 := ddLookup idx term1
  let r2 := ddLookup r1.2 term2
  (intersect_sorted intLt r1.1 r2.1, r2.2)

/-- `inverted_index.query_or`: two `defaultdict` lookups, then
`union_sorted` (which terminates normally). -/
def query_or (idx : TermIndex) (term1 term2 : String) :
    List Int × TermIndex :=
  let r1 := ddLookup idx term1
  let r2 := ddLookup r1.2 term2
  (union_sorted intLt r1.1 r2.1, r2.2)

/-- Claim C4 (code bug): on the index built from the single document
`{1: "a"}`, querying the absent term `"b"` against `"a"`: the AND query's
generator raises before yielding anything (flag `false`) instead of
yielding the empty sequence, while the OR query does yield the posting
list of `"a"` as claimed. -/
theorem query_absent_term_and_raises :
    (query_and (build_inverted_index [(1, ["a"])]) "b" "a").1 = ([], false) ∧
      (query_or (build_inverted_index [(1, ["a"])]) "b" "a").1 = [1] := by
  constructor <;> rfl

/-- Claim C5 (code bug): `query_and` mutates the index it reads.  On the
index built from `{1: "a"}` (whose only key is `"a"`), querying the absent
term `"b"` inserts the key `"b"` (mapped to `[]`) into the index via the
`defaultdict` lookup, so the key set after the query differs from the key
set before. -/
theorem query_and_mutates_index :
    build_inverted_index [(1, ["a"])] = [("a", [1])] ∧
      (query_and (build_inverted_index [(1, ["a"])]) "b" "a").2 =
        [("a", [1]), ("b", [])] := by
  constructor <;> rfl

/-- `abs` as computed by Python's `abs()` on integers. -/
def pabs (x : Int) : Int := if x < 0 then -x else x

/-- Inner `while position2 is not None` scan of
`inverted_index.positional_intersect`: `p2opt` is the current value of
`position2` (`none` = `None`), `r2` the unconsumed positions of the second
term, `pm` the accumulated `potential_matches`.  On `abs(p1-p2) <= prox`
the position is appended and the cursor advances; otherwise, if
`p2 > p1` the loop breaks keeping `position2`; otherwise the cursor just
advances.  Returns the final `(position2, rest2, potential_matches)`. -/
def innerScan (prox p1 : Int) : Option Int → List Int → List Int →
    Option Int × List Int × List Int
  | none, r2, pm => (none, r2, pm)
  | some p2, r2, pm =>
    if pabs (p1 - p2) ≤ prox then
      match r2 with
      | [] => (none, [], pm ++ [p2])
      | x :: r2' => innerScan prox p1 (some x) r2' (pm ++ [p2])
    else if p2 > p1 then (some p2, r2, pm)
    else
      match r2 with
      | [] => (none, [], pm)
      | x :: r2' => innerScan prox p1 (some x) r2' pm

/-- The eviction loop: `while len(potential_matches) > 0 and
abs(potential_matches[0] - position1) > proximity: drop the front`. -/
def evictFront (prox p1 : Int) : List Int → List Int
  | [] => []
  | x :: xs => if pabs (x - p1) > prox then evictFront prox p1 xs else x :: xs

/-- Outer `while position1 is not None` loop of the per-document scan of
`positional_intersect`: `p1opt`/`r1` the cursor into the first term's
positions, `p2opt`/`r2`/`pm` the state shared across iterations, `locs`
the accumulated `locations`. -/
def scanPositions (prox : Int) (p1opt : Option Int) (r1 : List Int)
    (p2opt : Option Int) (r2 : List Int) (pm locs : List Int) : List Int :=
  match p1opt with
  | none => locs
  | some p1 =>
    let s := innerScan prox p1 p2opt r2 pm
    let pm' := evictFront prox p1 s.2.2
    let locs' := if pm'.isEmpty then locs else locs ++ [p1]
    match r1 with
    | [] => locs'
    | x :: r1' => scanPositions prox (some x) r1' s.1 s.2.1 pm' locs'

/-- The `locations` computed for a document pair with equal doc ids. -/
def docLocations (prox : Int) (tp1 tp2 : List Int) : List Int :=
  scanPositions prox tp1.head? tp1.tail tp2.head? tp2.tail [] []

/-- The `while True` loop of `inverted_index.positional_intersect`.
`d1`/`tp1` are the unpacked current entry of the first positional list and
`r1` its remainder (likewise `d2`/`tp2`/`r2`).  All four `next` calls in
the loop are bare, so the loop only ever ends by raising: when either
iterator is exhausted the generator raises (PEP 479 `RuntimeError`).
In the `docid1 < docid2` branch the source unpacks into
`(docid1, position1)` — NOT `term_positions1` — so only the doc id
advances and the position list stays stale; the model reproduces this by
keeping `tp1` (symmetrically `tp2`).  Fuel `r1.length + r2.length + 1`
strictly decreases on every pass. -/
def positionalLoop (prox : Int) :
    Nat → Int → List Int → List (Int × List Int) →
    Int → List Int → List (Int × List Int) → List (Int × List Int)
  | 0, _, _, _, _, _, _ => []
  | fuel + 1, d1, tp1, r1, d2, tp2, r2 =>
    if d1 == d2 then
      let locs := docLocations prox tp1 tp2
      let out := if locs.isEmpty then [] else [(d1, locs)]
      match r1, r2 with
      | [], _ => out
      | _ :: _, [] => out
      | (a, ta) :: r1', (b, tb) :: r2' =>
        out ++ positionalLoop prox fuel a ta r1' b tb r2'
    else if d1 < d2 then
      match r1 with
      | [] => []
      | (a, _) :: r1' => positionalLoop prox fuel a tp1 r1' d2 tp2 r2
    else
      match r2 with
      | [] => []
      | (b, _) :: r2' => positionalLoop prox fuel d1 tp1 r1 b tp2 r2'

/-- `inverted_index.positional_intersect`: a generator over
`(docid, matching positions of the first term)` pairs.  The initial bare
`next` calls raise at once on an empty operand; the loop never terminates
normally (see `positionalLoop`), so the second component — `true` iff full
iteration terminates normally — is always `false`. -/
def positional_intersect (l1 l2 : List (Int × List Int)) (prox : Int) :
    List (Int × List Int) × Bool :=
  match l1, l2 with
  | [], _ => ([], false)
  | _ :: _, [] => ([], false)
  | (d1, t1) :: r1, (d2, t2) :: r2 =>
    (positionalLoop prox (r1.length + r2.length + 1) d1 t1 r1 d2 t2 r2, false)

/-- Claim C3 (code bug): on the spec's proximity example the generator
yields exactly `(1, [0])` — document 2 produces no emission — but it then
raises (`RuntimeError` from the bare `next` on the exhausted iterator,
flag `false`) instead of terminating normally. -/
theorem positional_intersect_example :
    positional_intersect [(1, [0]), (2, [1])] [(1, [1]), (2, [3])] 1 =
      ([(1, [0])], false) := rfl

/-- `tolerant_retrieval.kgrams` / `inverted_index.kgrams`: pad the term
with the sentinel `'$'` on both ends and yield every window of length `k`
(`range(0, len(padded) - k + 1)` windows; the truncated subtraction
matches Python's empty range when `k` exceeds the padded length). -/
def kgrams (term : String) (k : Nat) : List (List Char) :=
  let padded := '$' :: term.toList ++ ['$']
  (List.range (padded.length + 1 - k)).map (fun i => (padded.drop i).take k)

/-- `bisect.insort_left` on a list of strings ordered by Python `<`:
insert `a` at the leftmost position whose element is not `< a`. -/
def insortLeft (a : String) : List String → List String
  | [] => [a]
  | b :: l => if strLt b a then b :: insortLeft a l else a :: b :: l

/-- Association-list model of the `defaultdict(list)` from k-grams to
candidate term lists, in key-insertion order. -/
abbrev KGramIndex := List (List Char × List String)

/-- Replace the value stored for k-gram `kg` (first occurrence). -/
def setKgEntry : KGramIndex → List Char → List String → KGramIndex
  | [], _, _ => []
  | (k, v) :: rest, kg, nv =>
    if k == kg then (kg, nv) :: rest else (k, v) :: setKgEntry rest kg nv

/-- `bisect.insort_left(result[kgram], term)` on the `defaultdict`:
touching an absent k-gram creates the empty list first. -/
def kgInsert (idx : KGramIndex) (kg : List Char) (t : String) : KGramIndex :=
  match List.lookup kg idx with
  | none => idx ++ [(kg, insortLeft t [])]
  | some l => setKgEntry idx kg (insortLeft t l)

/-- `tolerant_retrieval.build_kgram_index` / the identical
`inverted_index.build_kgram_index`: for every term of the vocabulary (the
keys of the term index, in insertion order; the posting-list values are
unused) insort the term into the candidate list of each of its k-grams. -/
def build_kgram_index (vocabulary : List String) (k : Nat) : KGramIndex :=
  vocabulary.foldl
    (fun idx t => (kgrams t k).foldl (fun idx kg => kgInsert idx kg t) idx)
    []

/-- Glob matching with `*` matching any run of zero or more characters,
anchored at both ends, with explicit fuel (each step shrinks
`q.length + t.length`, so `q.length + t.length + 1` suffices). -/
def globFuel : Nat → List Char → List Char → Bool
  | 0, _, _ => false
  | fuel + 1, q, t =>
    match q, t with
    | [], [] => true
    | [], _ :: _ => false
    | '*' :: qs, [] => globFuel fuel qs []
    | '*' :: qs, c :: ts => globFuel fuel qs (c :: ts) || globFuel fuel ('*' :: qs) ts
    | _ :: _, [] => false
    | qc :: qs, tc :: ts => qc == tc && globFuel fuel qs ts

/-- `tolerant_retrieval.wildcard_match` / `inverted_index.wildcard_match`:
the code compiles `'^' + query.replace('*', '.*') + '$'` and tests a full
regex match; for queries built from ordinary characters and `*` (the only
queries this repository and its spec use) that is exactly anchored glob
matching. -/
def wildcard_match (query term : String) : Bool :=
  globFuel (query.toList.length + term.toList.length + 1) query.toList term.toList

/-- The errors `query_wildcard` can raise: `functools.reduce` of an empty
gram sequence with no initial value raises `TypeError`; exhausting a
`terms` iterator backed by an `intersect_sorted` generator raises
`RuntimeError` (PEP 479). -/
inductive QwError : Type
  | typeError : QwError
  | runtimeError : QwError
deriving DecidableEq

/-- The consumption loop of `query_wildcard` over the surviving terms
`ts`, where `ok` says whether exhausting the terms iterator terminates
normally (`true`: plain list from a single literal gram) or raises
(`false`: generator chain ending in `intersect_sorted`).  The code calls
`term = next(term_iter, None)` TWICE before the loop, so the first
surviving term is discarded; each loop pass replaces `result` with
`union_sorted(result, index[term])`; the pass that exhausts the iterator
either sees `None` (`ok`) or propagates the `RuntimeError`. -/
def consumeTerms (idx : TermIndex) (ts : List String) (ok : Bool) :
    Except QwError (List Int) :=
  if ok then
    match ts with
    | [] => Except.ok []
    | [_] => Except.ok []
    | _ :: rest =>
      Except.ok (rest.foldl
        (fun acc t => union_sorted intLt acc ((List.lookup t idx).getD [])) [])
  else Except.error QwError.runtimeError

/-- `tolerant_retrieval.query_wildcard` (the `inverted_index` copy is
line-for-line identical): extract the wildcard-free k-grams of the query,
intersect their candidate lists by `functools.reduce(intersect_sorted, ...)`,
filter the candidates by `wildcard_match`, then union the posting lists of
the surviving terms.  With zero literal grams, `reduce` raises `TypeError`.
With exactly one literal gram, `reduce` returns that candidate list itself
(a plain list, so iterating it ends normally).  With two or more, the
candidates come out of a lazy `intersect_sorted` generator chain: the
values produced are the left fold of the pairwise intersections' yields,
and exhausting the chain raises.  Index lookups here go through the same
`defaultdict` (absent keys give `[]`); the returned value is what consuming
the lazily built result sequence yields. -/
def query_wildcard (idx : TermIndex) (kgIdx : KGramIndex) (k : Nat)
    (query : String) : Except QwError (List Int) :=
  let kgs := (kgrams query k).filter (fun kg => !kg.contains '*')
  match kgs with
  | [] => Except.error QwError.typeError
  | [kg] =>
    consumeTerms idx
      (((List.lookup kg kgIdx).getD []).filter (fun t => wildcard_match query t))
      true
  | kg0 :: rest =>
    consumeTerms idx
      ((rest.foldl
          (fun acc kg => (intersect_sorted strLt acc ((List.lookup kg kgIdx).getD [])).1)
          ((List.lookup kg0 kgIdx).getD [])).filter
        (fun t => wildcard_match query t))
      false

/-- Claim C2 (code bug): on the spec's example — vocabulary
`cat, car, cart, dog`, `k = 2`, query `"ca*"` — the surviving candidate
terms are exactly `car, cart, cat`, but `query_wildcard` does not return
the union of their posting lists: its consumption loop drops the first
surviving term and then raises `RuntimeError` when the candidate iterator
(backed by `intersect_sorted`) is exhausted. -/
theorem query_wildcard_example_raises :
    query_wildcard [("cat", [1]), ("car", [2]), ("cart", [3]), ("dog", [4])]
        (build_kgram_index ["cat", "car", "cart", "dog"] 2) 2 "ca*" =
      Except.error QwError.runtimeError := rfl

/-- Claim C7 (code bug): for the query `"*"` with `k = 2` every gram of the
padded query contains `'*'`, so zero literal k-grams are extracted and
`functools.reduce` over the empty gram sequence raises `TypeError` instead
of falling back to the full vocabulary filtered by the pattern. -/
theorem query_wildcard_no_literal_gram_raises :
    query_wildcard [("cat", [1])] (build_kgram_index ["cat"] 2) 2 "*" =
      Except.error QwError.typeError := rfl

/-- Claim C8 (code bug): a term containing the same k-gram twice is
insorted into that gram's candidate list once per occurrence, so the list
is not duplicate-free: for the vocabulary `{"aaa"}` with `k = 2` the
candidate list of the gram `"aa"` is `["aaa", "aaa"]`. -/
theorem build_kgram_index_duplicate_terms :
    List.lookup ['a', 'a'] (build_kgram_index ["aaa"] 2) =
      some ["aaa", "aaa"] := rfl

/-- One interior cell of `tolerant_retrieval.edit_distance_table`:
`min(insert, delete, substitute)` with `insert = up + insert_cost(dest_char)`,
`delete = left + delete_cost(source_char)`, and `substitute = diag` plus the
substitution cost (0 when the characters are equal). -/
def cellVal (insC delC : Char → Int) (subC : Char → Char → Int)
    (sc dc : Char) (diag up left : Int) : Int :=
  min (min (up + insC dc) (left + delC sc))
    (diag + (if sc = dc then 0 else subC sc dc))

/-- The inner `for i in range(1, len(source) + 1)` loop of the table
construction, walking the source characters `ss` with `left` the cell just
computed in the current row and `prev` the previous row from column
`i - 1` on (so `prev` head is the diagonal neighbour and the next element
the one above). -/
def rowNextAux (insC delC : Char → Int) (subC : Char → Char → Int)
    (dc : Char) : Int → List Int → List Char → List Int
  | _, _, [] => []
  | _, [], _ :: _ => []
  | left, diag :: prevRest, sc :: ss =>
    cellVal insC delC subC sc dc diag (prevRest.headD 0) left ::
      rowNextAux insC delC subC dc
        (cellVal insC delC subC sc dc diag (prevRest.headD 0) left) prevRest ss

/-- One row `j >= 1` of the table from row `j - 1`: column 0 is
`table[j-1][0] + delete_cost(dest[j-1])` (the source applies `delete_cost`
to DEST characters in column 0, though the recurrence applies it to source
characters — with the default unit costs the difference vanishes). -/
def rowNext (insC delC : Char → Int) (subC : Char → Char → Int)
    (dc : Char) (src : List Char) (prev : List Int) : List Int :=
  (prev.headD 0 + delC dc) ::
    rowNextAux insC delC subC dc (prev.headD 0 + delC dc) prev src

/-- Row 0 of the table: `table[0][i] = table[0][i-1] + insert_cost(source[i-1])`
(the source applies `insert_cost` to SOURCE characters here), with `acc` the
running prefix cost. -/
def row0Aux (insC : Char → Int) (acc : Int) : List Char → List Int
  | [] => [acc]
  | c :: cs => acc :: row0Aux insC (acc + insC c) cs

/-- Row `dpre.length` of `edit_distance_table source dest ...` where
`dpre` is the consumed prefix of the destination: fold `rowNext` over it
starting from row 0. -/
def editRow (insC delC : Char → Int) (subC : Char → Char → Int)
    (src : List Char) (dpre : List Char) : List Int :=
  dpre.foldl (fun prev dc => rowNext insC delC subC dc src prev)
    (row0Aux insC 0 src)

/-- `table[j][i]` of `edit_distance_table`: entry `i` of row `j`. -/
def cellAt (insC delC : Char → Int) (subC : Char → Char → Int)
    (src dst : List Char) (j i : Nat) : Int :=
  (editRow insC delC subC src (dst.take j)).getD i 0

/-- `tolerant_retrieval.edit_distance`: the final corner cell
`table[len(dest)][len(source)]`. -/
def edit_distance (source dest : String) (insC delC : Char → Int)
    (subC : Char → Char → Int) : Int :=
  (editRow insC delC subC source.toList dest.toList).getD source.toList.length 0

/-- The backtrace loop of `tolerant_retrieval.alignment`, from table
position `(j, i)` back to `(0, 0)`, with fuel (each pass decreases
`j + i`, so `j + i` passes suffice).  At an interior cell it takes the
neighbour with the minimum RECORDED cell value — `min(del_cost, ins_cost,
sub_cost)` over `table[j][i-1]`, `table[j-1][i]`, `table[j-1][i-1]` —
preferring substitution on ties, then delete; at the borders it consumes
the remaining characters.  Operations are prepended, so the result is in
source order. -/
def alignFuel (insC delC : Char → Int) (subC : Char → Char → Int)
    (src dst : List Char) : Nat → Nat → Nat → List (Option Char × Option Char)
  | 0, _, _ => []
  | fuel + 1, j, i =>
    match j, i with
    | 0, 0 => []
    | j' + 1, 0 =>
      alignFuel insC delC subC src dst fuel j' 0 ++ [(none, some (dst.getD j' ' '))]
    | 0, i' + 1 =>
      alignFuel insC delC subC src dst fuel 0 i' ++ [(some (src.getD i' ' '), none)]
    | j' + 1, i' + 1 =>
      if min (min (cellAt insC delC subC src dst (j' + 1) i')
              (cellAt insC delC subC src dst j' (i' + 1)))
            (cellAt insC delC subC src dst j' i') =
          cellAt insC delC subC src dst j' i' then
        alignFuel insC delC subC src dst fuel j' i' ++
          [(some (src.getD i' ' '), some (dst.getD j' ' '))]
      else if min (min (cellAt insC delC subC src dst (j' + 1) i')
              (cellAt insC delC subC src dst j' (i' + 1)))
            (cellAt insC delC subC src dst j' i') =
          cellAt insC delC subC src dst (j' + 1) i' then
        alignFuel insC delC subC src dst fuel (j' + 1) i' ++
          [(some (src.getD i' ' '), none)]
      else
        alignFuel insC delC subC src dst fuel j' (i' + 1) ++
          [(none, some (dst.getD j' ' '))]

/-- `tolerant_retrieval.alignment`: backtrace from the corner
`(len(dest), len(source))`. -/
def alignment (source dest : String) (insC delC : Char → Int)
    (subC : Char → Char → Int) : List (Option Char × Option Char) :=
  alignFuel insC delC subC source.toList dest.toList
    (dest.toList.length + source.toList.length) dest.toList.length
    source.toList.length

/-- The per-operation cost of an alignment step, per the `alignment`
docstring: `(a, b)` is a substitution of `a` by `b` (free when they are
equal), `(a, None)` the deletion of `a`, `(None, b)` the insertion of `b`. -/
def opCost (insC delC : Char → Int) (subC : Char → Char → Int) :
    Option Char × Option Char → Int
  | (some a, some b) => if a = b then 0 else subC a b
  | (some a, none) => delC a
  | (none, some b) => insC b
  | (none, none) => 0

/-- The sum of the per-operation costs of a sequence of edit operations. -/
def costSum (insC delC : Char → Int) (subC : Char → Char → Int)
    (ops : List (Option Char × Option Char)) : Int :=
  (ops.map (opCost insC delC subC)).sum

/-- The default `insert_cost`/`delete_cost`: a constant 1. -/
def unitCost : Char → Int := fun _ => 1

/-- The default `substitute_cost`: a constant 1 (equal characters are
charged 0 by the table construction and by `opCost` directly). -/
def unitSubCost : Char → Char → Int := fun _ _ => 1

/-- Counterexample to claim C9 as stated: with `insert_cost = 2` and
`delete_cost = 1` (constant), `alignment("a", "")` is the single deletion
`[('a', None)]` with cost sum 1, while `edit_distance("a", "")` is 2 (row 0
of the table charges `insert_cost` to source characters), so the cost sum
of the alignment does not equal the reported distance for this choice of
cost functions. -/
theorem alignment_cost_mismatch :
    ¬ costSum (fun _ => 2) (fun _ => 1) (fun _ _ => 1)
        (alignment "a" "" (fun _ => 2) (fun _ => 1) (fun _ _ => 1)) =
      edit_distance "a" "" (fun _ => 2) (fun _ => 1) (fun _ _ => 1) := by
  decide

lemma headD_eq_getD_zero (l : List Int) (d : Int) : l.headD d = l.getD 0 d := by
  cases l <;> rfl

lemma row0Aux_getD_zero (insC : Char → Int) (acc : Int) (cs : List Char) :
    (row0Aux insC acc cs).getD 0 0 = acc := by
  cases cs <;> rfl

lemma row0Aux_getD_succ (insC : Char → Int) :
    ∀ (cs : List Char) (acc : Int) (i : Nat), i < cs.length →
      (row0Aux insC acc cs).getD (i + 1) 0 =
        (row0Aux insC acc cs).getD i 0 + insC (cs.getD i ' ') := by
  intro cs
  induction cs with
  | nil => intro acc i hi; simp at hi
  | cons c cs ih =>
    intro acc i hi
    cases i with
    | zero =>
      simp only [row0Aux, List.getD_cons_succ, List.getD_cons_zero]
      rw [row0Aux_getD_zero]
    | succ i' =>
      simp only [row0Aux, List.getD_cons_succ, List.getD_cons_zero]
      exact ih (acc + insC c) i' (by simpa using Nat.lt_of_succ_lt_succ hi)

lemma row0Aux_length (insC : Char → Int) :
    ∀ (cs : List Char) (acc : Int), (row0Aux insC acc cs).length = cs.length + 1 := by
  intro cs
  induction cs with
  | nil => intro acc; rfl
  | cons c cs ih => intro acc; simp [row0Aux, ih]

lemma rowNextAux_length (insC delC : Char → Int) (subC : Char → Char → Int)
    (dc : Char) :
    ∀ (ss : List Char) (prev : List Int) (left : Int), ss.length ≤ prev.length →
      (rowNextAux insC delC subC dc left prev ss).length = ss.length := by
  intro ss
  induction ss with
  | nil => intro prev left _; cases prev <;> rfl
  | cons sc ss ih =>
    intro prev left hl
    cases prev with
    | nil => simp at hl
    | cons diag prevRest =>
      simp only [rowNextAux, List.length_cons]
      rw [ih prevRest _ (by simpa using Nat.le_of_succ_le_succ hl)]

lemma rowNext_length (insC delC : Char → Int) (subC : Char → Char → Int)
    (dc : Char) (src : List Char) (prev : List Int)
    (hl : prev.length = src.length + 1) :
    (rowNext insC delC subC dc src prev).length = src.length + 1 := by
  simp only [rowNext, List.length_cons]
  rw [rowNextAux_length insC delC subC dc src prev _ (by omega)]

lemma editRow_length (insC delC : Char → Int) (subC : Char → Char → Int)
    (src : List Char) :
    ∀ dp : List Char, (editRow insC delC subC src dp).length = src.length + 1 := by
  have main : ∀ (dp : List Char) (prev : List Int),
      prev.length = src.length + 1 →
      (dp.foldl (fun prev dc => rowNext insC delC subC dc src prev) prev).length =
        src.length + 1 := by
    intro dp
    induction dp with
    | nil => intro prev h; simpa using h
    | cons dc dp ih =>
      intro prev h
      simp only [List.foldl_cons]
      exact ih _ (rowNext_length insC delC subC dc src prev h)
  intro dp
  exact main dp _ (row0Aux_length insC src 0)

lemma take_succ_concat {α : Type} (l : List α) (j : Nat) (d : α) (hj : j < l.length) :
    l.take (j + 1) = l.take j ++ [l.getD j d] := by
  rw [List.take_succ]
  congr 1
  rw [List.getElem?_eq_getElem hj]
  simp [List.getD_eq_getElem?_getD, List.getElem?_eq_getElem hj]

lemma editRow_take_succ (insC delC : Char → Int) (subC : Char → Char → Int)
    (src dst : List Char) (j : Nat) (hj : j < dst.length) :
    editRow insC delC subC src (dst.take (j + 1)) =
      rowNext insC delC subC (dst.getD j ' ') src
        (editRow insC delC subC src (dst.take j)) := by
  unfold editRow
  rw [take_succ_concat dst j ' ' hj, List.foldl_append]
  rfl

lemma costSum_concat (insC delC : Char → Int) (subC : Char → Char → Int)
    (ops : List (Option Char × Option Char)) (op : Option Char × Option Char) :
    costSum insC delC subC (ops ++ [op]) =
      costSum insC delC subC ops + opCost insC delC subC op := by
  simp [costSum]

lemma rowNextAux_cons_getD (insC delC : Char → Int) (subC : Char → Char → Int)
    (dc : Char) :
    ∀ (ss : List Char) (prev : List Int) (left : Int) (i : Nat),
      prev.length = ss.length + 1 → i < ss.length →
      (left :: rowNextAux insC delC subC dc left prev ss).getD (i + 1) 0 =
        cellVal insC delC subC (ss.getD i ' ') dc (prev.getD i 0)
          (prev.getD (i + 1) 0)
          ((left :: rowNextAux insC delC subC dc left prev ss).getD i 0) := by
  intro ss
  induction ss with
  | nil => intro prev left i _ hi; simp at hi
  | cons sc ss ih =>
    intro prev left i hl hi
    cases prev with
    | nil => simp at hl
    | cons diag prevRest =>
      have hl' : prevRest.length = ss.length + 1 := by
        simpa using hl
      cases i with
      | zero =>
        simp only [rowNextAux, List.getD_cons_succ, List.getD_cons_zero]
        rw [headD_eq_getD_zero]
      | succ i' =>
        have hi' : i' < ss.length := by simpa using Nat.lt_of_succ_lt_succ hi
        simp only [rowNextAux, List.getD_cons_succ]
        exact ih prevRest _ i' hl' hi'

lemma cellAt_zero_zero (insC delC : Char → Int) (subC : Char → Char → Int)
    (src dst : List Char) : cellAt insC delC subC src dst 0 0 = 0 := by
  simp only [cellAt, List.take_zero, editRow, List.foldl_nil]
  rw [row0Aux_getD_zero]

lemma cellAt_row0_succ (insC delC : Char → Int) (subC : Char → Char → Int)
    (src dst : List Char) (i : Nat) (hi : i < src.length) :
    cellAt insC delC subC src dst 0 (i + 1) =
      cellAt insC delC subC src dst 0 i + insC (src.getD i ' ') := by
  simp only [cellAt, List.take_zero, editRow, List.foldl_nil]
  exact row0Aux_getD_succ insC src 0 i hi

lemma cellAt_col0_succ (insC delC : Char → Int) (subC : Char → Char → Int)
    (src dst : List Char) (j : Nat) (hj : j < dst.length) :
    cellAt insC delC subC src dst (j + 1) 0 =
      cellAt insC delC subC src dst j 0 + delC (dst.getD j ' ') := by
  simp only [cellAt]
  rw [editRow_take_succ insC delC subC src dst j hj]
  simp only [rowNext, List.getD_cons_zero]
  rw [headD_eq_getD_zero]

lemma cellAt_succ_succ (insC delC : Char → Int) (subC : Char → Char → Int)
    (src dst : List Char) (j i : Nat) (hj : j < dst.length) (hi : i < src.length) :
    cellAt insC delC subC src dst (j + 1) (i + 1) =
      cellVal insC delC subC (src.getD i ' ') (dst.getD j ' ')
        (cellAt insC delC subC src dst j i)
        (cellAt insC delC subC src dst j (i + 1))
        (cellAt insC delC subC src dst (j + 1) i) := by
  have hlen : (editRow insC delC subC src (dst.take j)).length = src.length + 1 :=
    editRow_length insC delC subC src (dst.take j)
  simp only [cellAt]
  rw [editRow_take_succ insC delC subC src dst j hj]
  simp only [rowNext]
  exact rowNextAux_cons_getD insC delC subC (dst.getD j ' ') src
    (editRow insC delC subC src (dst.take j)) _ i hlen hi

lemma costSum_alignFuel (src dst : List Char) :
    ∀ (fuel j i : Nat), j ≤ dst.length → i ≤ src.length → j + i ≤ fuel →
      costSum unitCost unitCost unitSubCost
          (alignFuel unitCost unitCost unitSubCost src dst fuel j i) =
        cellAt unitCost unitCost unitSubCost src dst j i := by
  intro fuel
  induction fuel with
  | zero =>
    intro j i hj hi hf
    have hj0 : j = 0 := by omega
    have hi0 : i = 0 := by omega
    subst hj0; subst hi0
    simp only [alignFuel, costSum, List.map_nil, List.sum_nil]
    rw [cellAt_zero_zero]
  | succ fuel ih =>
    intro j i hj hi hf
    cases j with
    | zero =>
      cases i with
      | zero =>
        simp only [alignFuel, costSum, List.map_nil, List.sum_nil]
        rw [cellAt_zero_zero]
      | succ i' =>
        have hi' : i' < src.length := by omega
        simp only [alignFuel]
        rw [costSum_concat, ih 0 i' hj (by omega) (by omega),
          cellAt_row0_succ unitCost unitCost unitSubCost src dst i' hi']
        simp [opCost, unitCost]
    | succ j' =>
      have hj' : j' < dst.length := by omega
      cases i with
      | zero =>
        simp only [alignFuel]
        rw [costSum_concat, ih j' 0 (by omega) hi (by omega),
          cellAt_col0_succ unitCost unitCost unitSubCost src dst j' hj']
        simp [opCost, unitCost]
      | succ i' =>
        have hi' : i' < src.length := by omega
        rw [cellAt_succ_succ unitCost unitCost unitSubCost src dst j' i' hj' hi']
        simp only [alignFuel]
        split_ifs with h1 h2
        · rw [costSum_concat, ih j' i' (by omega) (by omega) (by omega)]
          simp only [opCost, cellVal, unitCost, unitSubCost]
          split_ifs <;> omega
        · rw [costSum_concat, ih (j' + 1) i' (by omega) (by omega) (by omega)]
          simp only [opCost, cellVal, unitCost, unitSubCost]
          split_ifs <;> omega
        · rw [costSum_concat, ih j' (i' + 1) (by omega) (by omega) (by omega)]
          simp only [opCost, cellVal, unitCost, unitSubCost]
          split_ifs <;> omega

/-- Claim C9, amended (corrected): with the DEFAULT unit costs the sum of
the per-operation costs of the operations returned by `alignment` equals
the value returned by `edit_distance`, for every pair of strings; and
`edit_distance("kitten", "sitting")` with unit costs is 3.  (For non-unit
cost functions the equality fails, see `alignment_cost_mismatch`: the
backtrace follows the minimum recorded cell value rather than the minimum
of predecessor-plus-step-cost, and row/column 0 of the table swap the
insert and delete cost functions.) -/
theorem alignment_costSum_unit_costs :
    (∀ source dest : String,
        costSum unitCost unitCost unitSubCost
            (alignment source dest unitCost unitCost unitSubCost) =
          edit_distance source dest unitCost unitCost unitSubCost) ∧
      edit_distance "kitten" "sitting" unitCost unitCost unitSubCost = 3 := by
  constructor
  · intro source dest
    have h := costSum_alignFuel source.toList dest.toList
      (dest.toList.length + source.toList.length) dest.toList.length
      source.toList.length (le_refl _) (le_refl _) (le_refl _)
    unfold alignment
    rw [h]
    unfold cellAt edit_distance
    rw [List.take_length]
  · decide
